import Mathlib

/-!
# lichess-bot: a shallow embedding of `index.js`

The definitions below follow `src/index.js` function by function.  JavaScript
values that matter to the control flow are made explicit:

* `undefined` / `false` / `null` results are `none` of an `Option`;
* a thrown exception is `none` of the result of a function that can throw, or
  the `crashed` phase of the main loop;
* a number is a `Num`: a finite rational, an infinity or `NaN`; every
  arithmetic result is rounded to a double by `round_double` (the sign of zero
  is not tracked: `-0` and `0` are the same number and the same index);
* `Math.random()` is an explicit argument `r`, a double with `0 ≤ r < 1`;
* everything the script reads from the browser page or from the engine during
  one pass of a loop is an explicit input record.
-/

namespace LichessBot

/-! ## Arrays and strings -/

/-- JavaScript `Array.prototype.indexOf`: the position of the first element
strictly equal to `a`, and `-1` when there is none. -/
def indexOf {α : Type} [DecidableEq α] (xs : List α) (a : α) : Int :=
  if a ∈ xs then (xs.indexOf a : Int) else -1

/-- JavaScript `parseInt` on a one-character string (`some c`) or on
`undefined` (`none`): a decimal digit gives its value, anything else is `NaN`
(`none`). -/
def parseInt (c : Option Char) : Option Nat :=
  match c with
  | some ch => if ch.isDigit then some (ch.toNat - 48) else none
  | none => none

/-- The array literal `[1,2,3,4,5,6,7,8]` that the source calls `files`
(it holds the rank numbers). -/
def files : List Nat := [1, 2, 3, 4, 5, 6, 7, 8]

/-- The array literal `['a', ..., 'h']` that the source calls `ranks`
(it holds the file letters). -/
def ranks : List Char := ['a', 'b', 'c', 'd', 'e', 'f', 'g', 'h']

/-- The two arrays after `if (is_white) files.reverse(); else ranks.reverse();`. -/
def oriented (is_white : Bool) : List Char × List Nat :=
  if is_white then (ranks, files.reverse) else (ranks.reverse, files)

/-- `ranks.indexOf(sq[0]) * 64`: the letter is a one-character string or
`undefined`, and `undefined` is never found. -/
def letter_px (rs : List Char) (c : Option Char) : Int :=
  (match c with
   | some ch => indexOf rs ch
   | none => -1) * 64

/-- `files.indexOf(parseInt(sq[1])) * 64`: `NaN` is never found. -/
def digit_px (fs : List Nat) (c : Option Char) : Int :=
  (match parseInt c with
   | some n => indexOf fs n
   | none => -1) * 64

/-- The pixel pair `(c1, c2)` (or `(d1, d2)`) that `get_move_selectors`
computes for the square whose two characters are `c0`, `c1`. -/
def square_px (c0 c1 : Option Char) (is_white : Bool) : Int × Int :=
  (letter_px (oriented is_white).1 c0, digit_px (oriented is_white).2 c1)

/-- The string `"transform: translate(" + a + "px, " + b + "px);"`. -/
def style_of (p : Int × Int) : String :=
  "transform: translate(" ++ toString p.1 ++ "px, " ++ toString p.2 ++ "px);"

/-- The object returned by `get_move_selectors`. -/
structure Selectors where
  src : String
  dst : String
deriving DecidableEq, Repr

/-- `get_move_selectors(smove, is_white)`.  `smove` is `none` for
`undefined`, on which `smove.slice` throws a `TypeError` (result `none`).
`src = smove.slice(0, 2)` and `dst = smove.slice(2)`, so `src[0]`, `src[1]`,
`dst[0]`, `dst[1]` are the characters 0 to 3 of `smove`. -/
def get_move_selectors (smove : Option String) (is_white : Bool) : Option Selectors :=
  match smove with
  | none => none
  | some s =>
    let cs := s.toList
    some { src := style_of (square_px cs[0]? cs[1]? is_white)
           dst := style_of (square_px cs[2]? cs[3]? is_white) }

/-- Array indexing `arr[n / 64]` with the JavaScript number division: an
element only when the quotient is an integer inside the array, `undefined`
otherwise. -/
def at_px {α : Type} (arr : List α) (n : Nat) : Option α :=
  if n % 64 = 0 then arr[n / 64]? else none

/-- The coordinate-to-square mapping of `get_last_move`:
`ranks[x/64].toString() + files[y/64].toString()` after the orientation
reversal; `none` when an index is `undefined` and `.toString()` throws. -/
def px_square (x y : Nat) (is_white : Bool) : Option String :=
  match at_px (oriented is_white).1 x, at_px (oriented is_white).2 y with
  | some c, some n => some (c.toString ++ toString n)
  | _, _ => none

/-! ## Reading the last move from the page -/

/-- The decimal value of a run of digit characters (the capture group,
converted by the division that follows). -/
def digits_value (ds : List Char) : Nat :=
  ds.foldl (fun n c => 10 * n + (c.toNat - 48)) 0

/-- The literal `px` under the `i` flag. -/
def is_px (p x : Char) : Bool :=
  (p == 'p' || p == 'P') && (x == 'x' || x == 'X')

/-- An attempt to match `/([0-9]+)px, ([0-9]+)px/i` at the start of `cs`.
Each group is greedy; giving back digits cannot help, because the character
after a shorter run is a digit and not `p`. -/
def match_here (cs : List Char) : Option (Nat × Nat) :=
  match cs.span Char.isDigit with
  | ([], _) => none
  | (d1, p :: x :: ',' :: ' ' :: rest) =>
    if is_px p x then
      match rest.span Char.isDigit with
      | ([], _) => none
      | (d2, p2 :: x2 :: _) =>
        if is_px p2 x2 then some (digits_value d1, digits_value d2) else none
      | (_, _) => none
    else none
  | (_, _) => none

/-- The groups of the leftmost match of `/([0-9]+)px, ([0-9]+)px/i` in `cs`,
`none` for the `null` of a failed `match`. -/
def match_px : List Char → Option (Nat × Nat)
  | [] => none
  | c :: cs =>
    match match_here (c :: cs) with
    | some m => some m
    | none => match_px cs

/-- One `square.last-move` element turned into a square name: its `style`
attribute (`none` when absent) is matched, and the groups are mapped through
`px_square`.  `none` when any step throws. -/
def square_of_style (style : Option String) (is_white : Bool) : Option String :=
  match style with
  | none => none
  | some st =>
    match match_px st.toList with
    | none => none
    | some (x, y) => px_square x y is_white

/-- `get_last_move(page)`.  The page is read through `is_white` (an element
`.orientation-white` exists) and `last_moves` (the `style` attributes of the
`square.last-move` elements, in document order).  The outer `none` is an
exception thrown inside `page.evaluate`; `some none` is the result `false`;
`some (some m)` is the move string `m`. -/
def get_last_move (is_white : Bool) (last_moves : List (Option String)) :
    Option (Option String) :=
  match last_moves with
  | [dst, src] =>
    match square_of_style src is_white, square_of_style dst is_white with
    | some src_coords, some dst_coords => some (some (src_coords ++ dst_coords))
    | _, _ => none
  | _ => some none

/-- `we_are_white(page)`: whether an element `.orientation-white` exists. -/
def we_are_white (is_white : Bool) : Bool := is_white

/-! ## Numbers -/

/-- A JavaScript number: a finite value, an infinity or `NaN`. -/
inductive Num where
  | fin (q : ℚ)
  | pos_inf
  | neg_inf
  | nan
deriving DecidableEq, Repr

/-- The power of two `2 ^ e` as a rational. -/
def pow2 (e : Int) : ℚ :=
  if 0 ≤ e then ((2 ^ e.toNat : Nat) : ℚ) else 1 / ((2 ^ (-e).toNat : Nat) : ℚ)

/-- The number of halvings that bring `n` below 2, at most `fuel` of them. -/
def halvings : Nat → Nat → Nat
  | 0, _ => 0
  | fuel + 1, n => if n < 2 then 0 else halvings fuel (n / 2) + 1

/-- The binary logarithm of a positive natural number, rounded down. -/
def ilog2 (n : Nat) : Nat := halvings n n

/-- The binary exponent of a non-zero rational: the `e` with
`2^e ≤ |q| < 2^(e+1)`. -/
def exponent (q : ℚ) : Int :=
  let e0 : Int := (ilog2 q.num.natAbs : Int) - (ilog2 q.den : Int)
  if pow2 e0 ≤ |q| then e0 else e0 - 1

/-- Rounding to the nearest integer, a tie going to the even one. -/
def round_half_even (m : ℚ) : Int :=
  if m - ⌊m⌋ < 1 / 2 then ⌊m⌋
  else if 1 / 2 < m - ⌊m⌋ then ⌊m⌋ + 1
  else if ⌊m⌋ % 2 = 0 then ⌊m⌋ else ⌊m⌋ + 1

/-- The double that an exact result `q` is rounded to (IEEE 754 binary64,
round to nearest, ties to even): 53 significant bits, the spacing never
below `2^-1074`, and an infinity when the rounded magnitude reaches
`2^1024`. -/
def round_double (q : ℚ) : Num :=
  if q = 0 then .fin 0
  else
    let u := pow2 (max (exponent q) (-1022) - 52)
    let y := (round_half_even (q / u) : ℚ) * u
    if pow2 1024 ≤ |y| then (if 0 < q then .pos_inf else .neg_inf) else .fin y

/-- Whether the rational `q` is a double: rounding leaves it unchanged. -/
def is_double (q : ℚ) : Bool :=
  decide (round_double q = .fin q)

/-- The operator `+` on numbers. -/
def Num.add : Num → Num → Num
  | .fin a, .fin b => round_double (a + b)
  | .nan, _ => .nan
  | _, .nan => .nan
  | .pos_inf, .neg_inf => .nan
  | .neg_inf, .pos_inf => .nan
  | .pos_inf, _ => .pos_inf
  | _, .pos_inf => .pos_inf
  | .neg_inf, _ => .neg_inf
  | _, .neg_inf => .neg_inf

/-- The unary `-` on numbers. -/
def Num.neg : Num → Num
  | .fin a => .fin (-a)
  | .pos_inf => .neg_inf
  | .neg_inf => .pos_inf
  | .nan => .nan

/-- The operator `-` on numbers. -/
def Num.sub (a b : Num) : Num := a.add b.neg

/-- The product of an infinity (`positive` tells its sign) and the finite
number `a`: `NaN` when `a` is zero. -/
def inf_times (positive : Bool) (a : ℚ) : Num :=
  if a = 0 then .nan
  else if (0 < a) = positive then .pos_inf else .neg_inf

/-- The operator `*` on numbers. -/
def Num.mul : Num → Num → Num
  | .fin a, .fin b => round_double (a * b)
  | .nan, _ => .nan
  | _, .nan => .nan
  | .fin a, .pos_inf => inf_times true a
  | .fin a, .neg_inf => inf_times false a
  | .pos_inf, .fin b => inf_times true b
  | .neg_inf, .fin b => inf_times false b
  | .pos_inf, .pos_inf => .pos_inf
  | .neg_inf, .neg_inf => .pos_inf
  | .pos_inf, .neg_inf => .neg_inf
  | .neg_inf, .pos_inf => .neg_inf

/-- `Math.floor`. -/
def Num.floor : Num → Num
  | .fin a => .fin ⌊a⌋
  | x => x

/-- `Math.ceil`. -/
def Num.ceil : Num → Num
  | .fin a => .fin ⌈a⌉
  | x => x

/-! ## Random integers and the engine's candidates -/

/-- `getRandomInt(min, max)` on finite arguments, with the value `r` of
`Math.random()` as an argument:
`Math.floor(r * (max - min + 1)) + min` after `min = Math.ceil(min)` and
`max = Math.floor(max)`, every operation rounded. -/
def getRandomInt (min max : ℚ) (r : ℚ) : Num :=
  let min := (Num.fin min).ceil
  let max := (Num.fin max).floor
  (((Num.fin r).mul ((max.sub min).add (.fin 1))).floor).add min

/-- One record of `result.info`: the search depth and the principal
variation, a string of moves separated by blanks.  The engine library fills
in only the fields that an `info` line carries, so `pv` can be missing
(`none`).  `depth` is read only by the test `obj.depth > 6`: a record without
`depth`, for which the test is false, is one of depth 0 here. -/
structure Info where
  depth : Nat
  pv : Option String
deriving DecidableEq, Repr

/-- `pv.split(' ')[0]`: the characters before the first blank. -/
def first_move (pv : String) : String :=
  String.mk (pv.toList.takeWhile (fun c => c != ' '))

/-- The body of the loop that fills `candidates` in `get_stockfish_move`: a
record with `depth > 6` contributes the first move of its `pv`, unless that
move is already included.  `none` is the `TypeError` of `obj.pv.split` on a
record with `depth > 6` and no `pv`. -/
def push_candidate (candidates : List String) (obj : Info) : Option (List String) :=
  if obj.depth > 6 then
    match obj.pv with
    | none => none
    | some pv =>
      let move := first_move pv
      some (if candidates.contains move then candidates else candidates ++ [move])
  else some candidates

/-- The array `candidates` after the loop over `result.info`, `none` when the
loop throws. -/
def candidates_of (info : List Info) : Option (List String) :=
  info.foldlM push_candidate []

/-- `candidates[Math.floor(r * candidates.length)]`; `none` is `undefined`,
which is also what an index that is negative, infinite or `NaN` gives. -/
def pick (candidates : List String) (r : ℚ) : Option String :=
  match round_double (r * (candidates.length : ℚ)) with
  | .fin y => if 0 ≤ ⌊y⌋ then candidates[⌊y⌋.toNat]? else none
  | _ => none

/-- `get_stockfish_move`, as a function of what `engine.go` resolved to
(`info`, the `result.info` array) and of the second `Math.random()` draw `r`.
The `position` and `go` commands sent to the engine before that are recorded
by the caller (`Action.search`).  The outer `none` is a thrown exception,
`some none` is the result `undefined`, `some (some m)` is the move `m`. -/
def get_stockfish_move (info : List Info) (r : ℚ) : Option (Option String) :=
  (candidates_of info).map fun candidates => pick candidates r

/-! ## The main loop -/

/-- The `config` object (the engine path plays no part here). -/
structure Config where
  maxGames : Nat
  only_one_game_per_player : Bool
  movetime : ℚ × ℚ

/-- The `if … else if …` chain that rewrites a castling move given by the
rook's square into the king's destination. -/
def castling_rewrite (last_move : String) : String :=
  if last_move = "e8h8" then "e8g8"
  else if last_move = "e8a8" then "e8c8"
  else if last_move = "e1h1" then "e1g1"
  else if last_move = "e1a1" then "e1c1"
  else last_move

/-- `moves_algebraic[moves_algebraic.length - 1]`: `undefined` on an empty
array, and also when the last element is `undefined`. -/
def last_elem (moves : List (Option String)) : Option String :=
  moves.getLast?.join

/-- The test `last_move && moves_algebraic[moves_algebraic.length - 1] !== last_move`;
`false` and the empty string are falsy. -/
def is_new_last_move (moves : List (Option String)) (last_move : Option String) : Bool :=
  match last_move with
  | some m => decide (m ≠ "") && decide (last_elem moves ≠ some m)
  | none => false

/-- What a poll that returned `last_move` does to `moves_algebraic`: a new
last move is rewritten and pushed. -/
def record_last_move (moves : List (Option String)) (last_move : Option String) :
    List (Option String) :=
  match last_move with
  | some m =>
    if is_new_last_move moves (some m) then moves ++ [some (castling_rewrite m)] else moves
  | none => moves

/-- The expression `our_term` for a history of `n` moves. -/
def our_term (white : Bool) (n : Nat) : Bool :=
  (white && n % 2 == 0) || (!white && n % 2 == 1)

/-- What the script does to the outside: the externally visible actions, in
order. -/
inductive Action where
  /-- The click on `button.random`, which seeks an opponent. -/
  | seek
  /-- The board of a new game is on the page and the game variables are reset. -/
  | game_start
  /-- The commands `position startpos moves …` and `go movetime …`. -/
  | search (moves : List (Option String)) (movetime : Num)
  /-- The call `page.click(selector)`. -/
  | click (selector : String)
  /-- The click on the rematch button. -/
  | rematch
deriving DecidableEq, Repr

/-- Where control is: at the test of the `for` loop, at the top of the
`while (true)` loop, after the `for` loop, or gone with an exception that
nothing catches. -/
inductive Phase where
  | seeking
  | playing
  | finished
  | crashed
deriving DecidableEq, Repr

/-- The variables of the main function (`last_move` is assigned before every
use and `show_info` only guards a log line; both are left out), with the
actions done so far. -/
structure State where
  phase : Phase
  i : Nat
  moves_algebraic : List (Option String)
  white : Bool
  log : List Action
deriving DecidableEq, Repr

/-- What one call of `get_stockfish_move` followed by the two clicks meets:
the first random draw (for the move time), the engine's answer, the second
random draw, and whether each `page.click` resolves. -/
structure Turn where
  movetime_rnd : ℚ
  info : List Info
  rnd : ℚ
  click_src_ok : Bool
  click_dst_ok : Bool

/-- Everything outside the script that one pass of a loop body can meet:
whether `waitForNavigation` resolves before its timeout, the orientation
class on the page that the navigation leads to, the orientation class and the
`square.last-move` styles on the page of the game, the text of
`.result_wrap` (`none` when absent), and one `Turn` for each of the two places
where a move is played.  The other page operations (`goto`,
`waitForSelector`, the clicks on `button.random` and on the rematch button)
are taken to resolve. -/
structure Ext where
  nav_ok : Bool
  next_is_white : Bool
  is_white : Bool
  last_moves : List (Option String)
  result_wrap : Option String
  first : Turn
  reply : Turn

/-- The start of the main function once logged in: `i = 0`, nothing done
yet.  `white` and `moves_algebraic` are not yet assigned; they are written
before they are read. -/
def init : State :=
  { phase := .seeking, i := 0, moves_algebraic := [], white := false, log := [] }

/-- The `search` action of one call of `get_stockfish_move` on the history
`moves`. -/
def search_action (cfg : Config) (moves : List (Option String)) (t : Turn) : Action :=
  .search moves (getRandomInt cfg.movetime.1 cfg.movetime.2 t.movetime_rnd)

/-- One pass of the `for` loop up to the `while`: the test `i < config.maxGames`,
the seek, and the wait of at most two minutes for a game. -/
def seek_step (cfg : Config) (s : State) (e : Ext) : State :=
  if s.i < cfg.maxGames then
    if e.nav_ok then
      { s with phase := .playing
               moves_algebraic := []
               white := we_are_white e.next_is_white
               log := s.log ++ [.seek, .game_start] }
    else
      { s with phase := .finished, log := s.log ++ [.seek] }
  else
    { s with phase := .finished }

/-- The branch `if (white === true && moves_algebraic.length === 0)`: the
move is pushed, then translated, then clicked; nothing here is inside a
`try`, so an exception of `get_stockfish_move`, of `get_move_selectors` or of
a click ends the main function. -/
def first_move_branch (cfg : Config) (s : State) (t : Turn) : State :=
  if s.white = true ∧ s.moves_algebraic.length = 0 then
    let s0 : State := { s with log := s.log ++ [search_action cfg s.moves_algebraic t] }
    match get_stockfish_move t.info t.rnd with
    | none => { s0 with phase := .crashed }
    | some smove =>
      let s1 : State := { s0 with moves_algebraic := s.moves_algebraic ++ [smove] }
      match get_move_selectors smove s1.white with
      | none => { s1 with phase := .crashed }
      | some selectors =>
        let s2 : State :=
          { s1 with log := s1.log ++ [Action.click ("piece[style=\"" ++ selectors.src ++ "\"]")] }
        if t.click_src_ok then
          let s3 : State :=
            { s2 with log := s2.log ++ [Action.click ("[style=\"" ++ selectors.dst ++ "\"]")] }
          if t.click_dst_ok then s3 else { s3 with phase := .crashed }
        else { s2 with phase := .crashed }
  else s

/-- The body of `if (our_term)`: the search and the translation are outside
the `try`, the two clicks are inside it, and the chosen move is not pushed. -/
def our_term_branch (cfg : Config) (s : State) (t : Turn) : State :=
  let s1 : State := { s with log := s.log ++ [search_action cfg s.moves_algebraic t] }
  match get_stockfish_move t.info t.rnd with
  | none => { s1 with phase := .crashed }
  | some smove =>
    match get_move_selectors smove s1.white with
    | none => { s1 with phase := .crashed }
    | some selectors =>
      let s2 : State :=
        { s1 with log := s1.log ++ [Action.click ("piece[style=\"" ++ selectors.src ++ "\"]")] }
      if t.click_src_ok then
        { s2 with log := s2.log ++ [Action.click ("[style=\"" ++ selectors.dst ++ "\"]")] }
      else s2

/-- The end of the `while` body, reached when the poll found no new move:
the result text is read; with a result, either the `while` is left (`break`,
then `i++`), or a rematch is offered and awaited for 22 seconds. -/
def result_branch (cfg : Config) (s : State) (e : Ext) : State :=
  match e.result_wrap with
  | none => s
  | some msg =>
    if msg = "" then s
    else if cfg.only_one_game_per_player then
      { s with phase := .seeking, i := s.i + 1 }
    else
      if e.nav_ok then
        { s with moves_algebraic := []
                 white := we_are_white e.next_is_white
                 log := s.log ++ [.rematch, .game_start] }
      else
        { s with phase := .seeking, i := s.i + 1, log := s.log ++ [.rematch] }

/-- The `while` body after the first-move branch: the poll of the last move,
its recording and our answer, or else the look at the result. -/
def poll_branch (cfg : Config) (s : State) (e : Ext) : State :=
  match get_last_move e.is_white e.last_moves with
  | none => { s with phase := .crashed }
  | some last_move =>
    if is_new_last_move s.moves_algebraic last_move then
      let s1 : State := { s with moves_algebraic := record_last_move s.moves_algebraic last_move }
      if our_term s1.white s1.moves_algebraic.length then our_term_branch cfg s1 e.reply
      else s1
    else result_branch cfg s e

/-- One pass of the `while (true)` body. -/
def play_step (cfg : Config) (s : State) (e : Ext) : State :=
  let s1 := first_move_branch cfg s e.first
  match s1.phase with
  | .playing => poll_branch cfg s1 e
  | _ => s1

/-- One step of the main function on the outside input `e`. -/
def step (cfg : Config) (s : State) (e : Ext) : State :=
  match s.phase with
  | .seeking => seek_step cfg s e
  | .playing => play_step cfg s e
  | .finished => s
  | .crashed => s

/-- The main function run against a sequence of outside inputs. -/
def run (cfg : Config) (es : List Ext) : State :=
  es.foldl (step cfg) init

/-- The number of games started: a game starts on each successful seek and on
each accepted rematch. -/
def games_started (s : State) : Nat :=
  s.log.count Action.game_start

/-- The number of seeks made. -/
def seeks_made (s : State) : Nat :=
  s.log.count Action.seek

/-! ## Vocabulary of the statements -/

/-- The 64 square names, `a1` to `h8`. -/
def squares : List String :=
  ranks.flatMap fun c => files.map fun n => c.toString ++ toString n

/-- The four-character move string from the square with file index `f`
(a = 0, ..., h = 7) and rank `r` to the square with file index `g` and rank
`q`: a file letter is `'a' + f`, a rank digit is `'0' + r`. -/
def move_string (f r g q : Nat) : String :=
  String.mk [Char.ofNat (97 + f), Char.ofNat (48 + r), Char.ofNat (97 + g), Char.ofNat (48 + q)]

/-- The counters of the match loop: seeks made, games started, rematches
offered. -/
def counters (s : State) : Nat × Nat × Nat :=
  (s.log.count Action.seek, s.log.count Action.game_start, s.log.count Action.rematch)

/-- An outside input on which nothing happens: we play Black, no square is
marked as last move, no result is shown, navigation resolves, and the engine
(not asked) has nothing to say. -/
def quiet : Ext :=
  { nav_ok := true, next_is_white := false, is_white := false, last_moves := [],
    result_wrap := none,
    first := ⟨0, [], 0, true, true⟩, reply := ⟨0, [], 0, true, true⟩ }

/-- The page of a finished game: as `quiet`, with a result text. -/
def game_over : Ext :=
  { quiet with result_wrap := some "Checkmate" }

/-- The values of `config` in the source. -/
def config : Config :=
  { maxGames := 5, only_one_game_per_player := false, movetime := (100, 300) }

/-- A game in which we play Black, after 1. e4 e5 2. Nf3 Nc6 3. Bc4 Nf6. -/
def before_castling : State :=
  { phase := .playing, i := 0,
    moves_algebraic :=
      [some "e2e4", some "e7e5", some "g1f3", some "b8c6", some "f1c4", some "g8f6"],
    white := false, log := [.seek, .game_start] }

/-- The page after White has castled short, shown with the king on its
square and the rook's square as destination: with the black orientation `e1`
is at (192, 0) and `h1` at (0, 0).  The engine answers `f8c5`. -/
def castled : Ext :=
  { quiet with
    last_moves := [some "transform: translate(0px, 0px);",
                   some "transform: translate(192px, 0px);"]
    reply := ⟨0, [⟨10, some "f8c5 d2d3"⟩], 0, true, true⟩ }

/-- A game in which we play White and no move has been made. -/
def opening : State :=
  { phase := .playing, i := 0, moves_algebraic := [], white := true,
    log := [.seek, .game_start] }

/-- The engine suggests `e2e4` at depth 10, and the click on the source
square is rejected. -/
def click_rejected : Ext :=
  { quiet with is_white := true, first := ⟨0, [⟨10, some "e2e4 e7e5"⟩], 0, false, true⟩ }

/-- The engine only returns records of depth 6 or less. -/
def shallow : Ext :=
  { quiet with
    is_white := true
    first := ⟨0, [⟨6, some "e2e4 e7e5"⟩, ⟨3, some "d2d4"⟩], 0, true, true⟩ }

/-! ## Coordinates: orientation and round trip -/

theorem square_length (s : String) (hs : s ∈ squares) : s.toList.length = 2 := by
  revert s
  decide

theorem square_back (s : String) (hs : s ∈ squares) (is_white : Bool) :
    0 ≤ (square_px s.toList[0]? s.toList[1]? is_white).1 ∧
    0 ≤ (square_px s.toList[0]? s.toList[1]? is_white).2 ∧
    px_square (square_px s.toList[0]? s.toList[1]? is_white).1.toNat
      (square_px s.toList[0]? s.toList[1]? is_white).2.toNat is_white = some s ∧
    square_of_style (some (style_of (square_px s.toList[0]? s.toList[1]? is_white)))
      is_white = some s := by
  revert s is_white
  decide

theorem move_chars (s t : String) (hs : s ∈ squares) (ht : t ∈ squares) :
    (s ++ t).toList[0]? = s.toList[0]? ∧ (s ++ t).toList[1]? = s.toList[1]? ∧
      (s ++ t).toList[2]? = t.toList[0]? ∧ (s ++ t).toList[3]? = t.toList[1]? := by
  have h1 := square_length s hs
  have h2 := square_length t ht
  rw [String.toList, String.toList, String.toList] at *
  rw [String.data_append]
  match hs' : s.data, ht' : t.data with
  | [a, b], [c, d] => simp
  | [], _ => simp [hs'] at h1
  | [_], _ => simp [hs'] at h1
  | _ :: _ :: _ :: _, _ => simp [hs'] at h1
  | _, [] => simp [ht'] at h2
  | _, [_] => simp [ht'] at h2
  | _, _ :: _ :: _ :: _ => simp [ht'] at h2

/-- C1: for every square `s` (file a-h, rank 1-8) and both orientations, the
pixel pair that `get_move_selectors` computes for `s` is non-negative and the
coordinate-to-square mapping of `get_last_move`, with the same orientation,
sends it back to `s`.  The same holds through the style string and the
regular expression, and for a whole move: a page whose two last-move squares
carry the selectors of `s ++ t` is read back as `s ++ t`. -/
theorem coordinate_round_trip (s : String) (hs : s ∈ squares) (is_white : Bool) :
    0 ≤ (square_px s.toList[0]? s.toList[1]? is_white).1 ∧
    0 ≤ (square_px s.toList[0]? s.toList[1]? is_white).2 ∧
    px_square (square_px s.toList[0]? s.toList[1]? is_white).1.toNat
      (square_px s.toList[0]? s.toList[1]? is_white).2.toNat is_white = some s ∧
    square_of_style (some (style_of (square_px s.toList[0]? s.toList[1]? is_white)))
      is_white = some s ∧
    ∀ t ∈ squares, ∃ sel, get_move_selectors (some (s ++ t)) is_white = some sel ∧
      get_last_move is_white [some sel.dst, some sel.src] = some (some (s ++ t)) := by
  obtain ⟨b1, b2, b3, b4⟩ := square_back s hs is_white
  refine ⟨b1, b2, b3, b4, ?_⟩
  intro t ht
  obtain ⟨h0, h1, h2, h3⟩ := move_chars s t hs ht
  refine ⟨_, rfl, ?_⟩
  simp only [get_last_move, h0, h1, h2, h3, b4, (square_back t ht is_white).2.2.2]

/-- C1 at the square `e2` with the white orientation: its pixel pair is
mapped back to `e2`. -/
theorem coordinate_round_trip_witness :
    "e2" ∈ squares ∧
    px_square (square_px "e2".toList[0]? "e2".toList[1]? true).1.toNat
      (square_px "e2".toList[0]? "e2".toList[1]? true).2.toNat true = some "e2" :=
  ⟨by decide, (coordinate_round_trip "e2" (by decide) true).2.2.1⟩

theorem square_px_orientation (f r : Nat) (hf : f < 8) (hr1 : 1 ≤ r) (hr8 : r ≤ 8) :
    square_px (some (Char.ofNat (97 + f))) (some (Char.ofNat (48 + r))) true
        = (64 * (f : Int), 64 * (8 - (r : Int))) ∧
      square_px (some (Char.ofNat (97 + f))) (some (Char.ofNat (48 + r))) false
        = (64 * (7 - (f : Int)), 64 * ((r : Int) - 1)) := by
  interval_cases f <;> interval_cases r <;> decide

/-- C6: for a move from the square with file index `f` (a = 0 .. h = 7) and
rank `r` (1..8) to the square `(g, q)`, each selector of `get_move_selectors`
is `translate(64*f px, 64*(8-r) px)` when `is_white` is true and
`translate(64*(7-f) px, 64*(r-1) px)` when it is false; so a8 is at (0, 0) and
h1 at (448, 448) for White, h1 at (0, 0) and a8 at (448, 448) for Black, and
the local player's home rank (rank 1 for White, rank 8 for Black) has
y = 448 in both orientations. -/
theorem selector_orientation (f r g q : Nat) (hf : f < 8) (hr1 : 1 ≤ r) (hr8 : r ≤ 8)
    (hg : g < 8) (hq1 : 1 ≤ q) (hq8 : q ≤ 8) :
    get_move_selectors (some (move_string f r g q)) true =
      some { src := style_of (64 * (f : Int), 64 * (8 - (r : Int)))
             dst := style_of (64 * (g : Int), 64 * (8 - (q : Int))) } ∧
    get_move_selectors (some (move_string f r g q)) false =
      some { src := style_of (64 * (7 - (f : Int)), 64 * ((r : Int) - 1))
             dst := style_of (64 * (7 - (g : Int)), 64 * ((q : Int) - 1)) } ∧
    get_move_selectors (some "a8h1") true =
      some { src := "transform: translate(0px, 0px);"
             dst := "transform: translate(448px, 448px);" } ∧
    get_move_selectors (some "h1a8") false =
      some { src := "transform: translate(0px, 0px);"
             dst := "transform: translate(448px, 448px);" } ∧
    (square_px (some (Char.ofNat (97 + f))) (some '1') true).2 = 448 ∧
    (square_px (some (Char.ofNat (97 + f))) (some '8') false).2 = 448 := by
  refine ⟨?_, ?_, by decide, by decide, ?_, ?_⟩
  · rw [← (square_px_orientation f r hf hr1 hr8).1, ← (square_px_orientation g q hg hq1 hq8).1]
    rfl
  · rw [← (square_px_orientation f r hf hr1 hr8).2, ← (square_px_orientation g q hg hq1 hq8).2]
    rfl
  · exact (congrArg Prod.snd (square_px_orientation f 1 hf (by omega) (by omega)).1).trans
      (by norm_num)
  · exact (congrArg Prod.snd (square_px_orientation f 8 hf (by omega) (by omega)).2).trans
      (by norm_num)

/-- C6 at the move `e2e4` (file index 4, ranks 2 and 4) played as White. -/
theorem selector_orientation_witness :
    get_move_selectors (some "e2e4") true =
      some { src := "transform: translate(256px, 384px);"
             dst := "transform: translate(256px, 256px);" } :=
  (selector_orientation 4 2 4 4 (by decide) (by decide) (by decide) (by decide) (by decide)
    (by decide)).1

/-! ## Castling rewrite -/

theorem castling_rewrite_fixed (m : String) (h1 : m ≠ "e8h8") (h2 : m ≠ "e8a8")
    (h3 : m ≠ "e1h1") (h4 : m ≠ "e1a1") : castling_rewrite m = m := by
  simp [castling_rewrite, h1, h2, h3, h4]

/-- C2: the castling rewrite of the polling branch is a total function of the
observed move string that sends `e8h8` to `e8g8`, `e8a8` to `e8c8`, `e1h1` to
`e1g1` and `e1a1` to `e1c1`, leaves every other string `m` unchanged, and
gives the same result applied twice as applied once; it is what a poll that
found a new last move pushes on the history. -/
theorem castling_rewrite_idempotent (m : String) :
    castling_rewrite "e8h8" = "e8g8" ∧ castling_rewrite "e8a8" = "e8c8" ∧
    castling_rewrite "e1h1" = "e1g1" ∧ castling_rewrite "e1a1" = "e1c1" ∧
    (m ≠ "e8h8" → m ≠ "e8a8" → m ≠ "e1h1" → m ≠ "e1a1" → castling_rewrite m = m) ∧
    castling_rewrite (castling_rewrite m) = castling_rewrite m ∧
    (∀ moves : List (Option String), is_new_last_move moves (some m) = true →
      record_last_move moves (some m) = moves ++ [some (castling_rewrite m)]) := by
  refine ⟨by decide, by decide, by decide, by decide, castling_rewrite_fixed m, ?_, ?_⟩
  · by_cases h1 : m = "e8h8"
    · subst h1; decide
    by_cases h2 : m = "e8a8"
    · subst h2; decide
    by_cases h3 : m = "e1h1"
    · subst h3; decide
    by_cases h4 : m = "e1a1"
    · subst h4; decide
    rw [castling_rewrite_fixed m h1 h2 h3 h4, castling_rewrite_fixed m h1 h2 h3 h4]
  · intro moves h
    simp [record_last_move, h]

/-- C2 at the move `e2e4`, which is none of the four castling forms. -/
theorem castling_rewrite_idempotent_witness : castling_rewrite "e2e4" = "e2e4" :=
  (castling_rewrite_idempotent "e2e4").2.2.2.2.1 (by decide) (by decide) (by decide)
    (by decide)

/-! ## Rounding to a double -/

theorem pow2_eq (e : Int) : pow2 e = (2 : ℚ) ^ e := by
  unfold pow2
  split
  · rename_i h
    rw [Nat.cast_pow, Nat.cast_ofNat, ← zpow_natCast, Int.toNat_of_nonneg h]
  · rename_i h
    have h' : 0 ≤ -e := by omega
    rw [Nat.cast_pow, Nat.cast_ofNat, ← zpow_natCast, Int.toNat_of_nonneg h', zpow_neg,
      one_div, inv_inv]

theorem pow2_pos (e : Int) : 0 < pow2 e := by
  rw [pow2_eq]
  positivity

theorem halvings_spec (fuel n : Nat) (h1 : 1 ≤ n) (h2 : n ≤ fuel) :
    2 ^ halvings fuel n ≤ n ∧ n < 2 ^ (halvings fuel n + 1) := by
  induction fuel generalizing n with
  | zero => omega
  | succ f ih =>
    unfold halvings
    by_cases hn : n < 2
    · have : n = 1 := by omega
      subst this
      simp
    · simp only [hn, if_false]
      have hd1 : 1 ≤ n / 2 := by omega
      have hd2 : n / 2 ≤ f := by omega
      obtain ⟨a, b⟩ := ih (n / 2) hd1 hd2
      constructor
      · rw [pow_succ]; omega
      · rw [pow_succ]; omega

theorem ilog2_spec (n : Nat) (h : 1 ≤ n) : 2 ^ ilog2 n ≤ n ∧ n < 2 ^ (ilog2 n + 1) :=
  halvings_spec n n h (le_refl n)

theorem abs_eq_natAbs_div (q : ℚ) : |q| = (q.num.natAbs : ℚ) / (q.den : ℚ) := by
  have hq : q = (q.num : ℚ) / (q.den : ℚ) := (Rat.num_div_den q).symm
  have hden : (0 : ℚ) < (q.den : ℚ) := by exact_mod_cast q.den_pos
  conv_lhs => rw [hq]
  rw [abs_div, abs_of_pos hden, Nat.cast_natAbs, Int.cast_abs]

theorem exponent_spec (q : ℚ) (hq : q ≠ 0) :
    (2 : ℚ) ^ exponent q ≤ |q| ∧ |q| < (2 : ℚ) ^ (exponent q + 1) := by
  have hnum : 1 ≤ q.num.natAbs := by
    have : q.num ≠ 0 := Rat.num_ne_zero.mpr hq
    omega
  have hden : 1 ≤ q.den := q.den_pos
  obtain ⟨a1, a2⟩ := ilog2_spec q.num.natAbs hnum
  obtain ⟨b1, b2⟩ := ilog2_spec q.den hden
  have hdq : (0 : ℚ) < (q.den : ℚ) := by exact_mod_cast q.den_pos
  have a1' : (2 : ℚ) ^ (ilog2 q.num.natAbs) ≤ (q.num.natAbs : ℚ) := by exact_mod_cast a1
  have a2' : (q.num.natAbs : ℚ) < (2 : ℚ) ^ (ilog2 q.num.natAbs + 1) := by exact_mod_cast a2
  have b1' : (2 : ℚ) ^ (ilog2 q.den) ≤ (q.den : ℚ) := by exact_mod_cast b1
  have b2' : (q.den : ℚ) < (2 : ℚ) ^ (ilog2 q.den + 1) := by exact_mod_cast b2
  have habs := abs_eq_natAbs_div q
  -- bounds for e0 = la - lb
  have hup : |q| < (2 : ℚ) ^ ((ilog2 q.num.natAbs : Int) - (ilog2 q.den : Int) + 1) := by
    rw [habs, div_lt_iff₀ hdq]
    have : (2 : ℚ) ^ ((ilog2 q.num.natAbs : Int) - (ilog2 q.den : Int) + 1) * (2 : ℚ) ^ (ilog2 q.den)
        = (2 : ℚ) ^ (ilog2 q.num.natAbs + 1) := by
      rw [← zpow_natCast, ← zpow_add₀ (by norm_num : (2 : ℚ) ≠ 0), ← zpow_natCast]
      congr 1
      push_cast
      ring
    calc (q.num.natAbs : ℚ) < (2 : ℚ) ^ (ilog2 q.num.natAbs + 1) := a2'
      _ = (2 : ℚ) ^ ((ilog2 q.num.natAbs : Int) - (ilog2 q.den : Int) + 1)
            * (2 : ℚ) ^ (ilog2 q.den) := this.symm
      _ ≤ _ := by
        apply mul_le_mul_of_nonneg_left b1'
        positivity
  have hlow : (2 : ℚ) ^ ((ilog2 q.num.natAbs : Int) - (ilog2 q.den : Int) - 1) ≤ |q| := by
    rw [habs, le_div_iff₀ hdq]
    have : (2 : ℚ) ^ ((ilog2 q.num.natAbs : Int) - (ilog2 q.den : Int) - 1)
        * (2 : ℚ) ^ (ilog2 q.den + 1) = (2 : ℚ) ^ (ilog2 q.num.natAbs) := by
      rw [← zpow_natCast, ← zpow_add₀ (by norm_num : (2 : ℚ) ≠ 0), ← zpow_natCast]
      congr 1
      push_cast
      ring
    calc (2 : ℚ) ^ ((ilog2 q.num.natAbs : Int) - (ilog2 q.den : Int) - 1) * (q.den : ℚ)
        ≤ (2 : ℚ) ^ ((ilog2 q.num.natAbs : Int) - (ilog2 q.den : Int) - 1)
            * (2 : ℚ) ^ (ilog2 q.den + 1) := by
          apply mul_le_mul_of_nonneg_left b2'.le
          positivity
      _ = (2 : ℚ) ^ (ilog2 q.num.natAbs) := this
      _ ≤ _ := a1'
  unfold exponent
  simp only [pow2_eq]
  split
  · rename_i h
    exact ⟨h, hup⟩
  · rename_i h
    refine ⟨hlow, ?_⟩
    rw [sub_add_cancel]
    exact lt_of_not_le h

theorem round_half_even_near (m : ℚ) :
    (round_half_even m : ℚ) ≤ m + 1 / 2 ∧ m - 1 / 2 ≤ (round_half_even m : ℚ) := by
  have h1 := Int.floor_le m
  have h2 := Int.lt_floor_add_one m
  unfold round_half_even
  split
  · constructor <;> linarith
  · split
    · push_cast
      constructor <;> linarith
    · rename_i ha hb
      have heq : m - ⌊m⌋ = 1 / 2 := le_antisymm (not_lt.mp hb) (not_lt.mp ha)
      split
      · constructor <;> linarith
      · push_cast
        constructor <;> linarith

theorem round_half_even_le (m : ℚ) (k : Int) (h : m ≤ k) : round_half_even m ≤ k := by
  have h1 := Int.floor_le m
  have hfl : ⌊m⌋ ≤ k := Int.floor_le_iff.mpr (by linarith : m < (k : ℚ) + 1) |> fun x => x
  by_cases hk : ⌊m⌋ = k
  · -- m = k exactly
    have hm : m - ⌊m⌋ ≤ 0 := by rw [hk]; linarith
    have : m - ⌊m⌋ < 1 / 2 := by linarith
    simp only [round_half_even, this, if_true]
    exact hfl
  · have hlt : ⌊m⌋ + 1 ≤ k := by omega
    unfold round_half_even
    split
    · omega
    · split
      · exact hlt
      · split
        · omega
        · exact hlt

theorem le_round_half_even (m : ℚ) (k : Int) (h : (k : ℚ) ≤ m) : k ≤ round_half_even m := by
  have hfl : k ≤ ⌊m⌋ := Int.le_floor.mpr h
  unfold round_half_even
  split
  · exact hfl
  · split
    · omega
    · split
      · exact hfl
      · omega

theorem round_double_of_ne (q : ℚ) (hq : q ≠ 0) :
    round_double q =
      if (2 : ℚ) ^ (1024 : Int) ≤
          |(round_half_even (q / (2 : ℚ) ^ (max (exponent q) (-1022) - 52)) : ℚ)
            * (2 : ℚ) ^ (max (exponent q) (-1022) - 52)|
      then (if 0 < q then .pos_inf else .neg_inf)
      else .fin ((round_half_even (q / (2 : ℚ) ^ (max (exponent q) (-1022) - 52)) : ℚ)
            * (2 : ℚ) ^ (max (exponent q) (-1022) - 52)) := by
  simp only [round_double, hq, if_false, pow2_eq]

theorem two_zpow_53 : (2 : ℚ) ^ (53 : Int) = 9007199254740992 := by norm_num

/-- Rounding a non-negative `q ≤ n (1 - 2^-53)` for a natural `n < 2^53` never reaches `n`. -/
theorem round_double_lt (q : ℚ) (n : Nat) (hq0 : 0 ≤ q) (hn0 : 0 < n)
    (hn : (n : ℚ) < (2 : ℚ) ^ (53 : Int))
    (hqn : q ≤ (n : ℚ) * (1 - 1 / (2 : ℚ) ^ (53 : Int))) :
    ∃ y, round_double q = .fin y ∧ 0 ≤ y ∧ y < n := by
  have hnpos : (0 : ℚ) < n := by exact_mod_cast hn0
  have h53 : (0 : ℚ) < (2 : ℚ) ^ (53 : Int) := by positivity
  by_cases hq : q = 0
  · refine ⟨0, ?_, le_refl _, hnpos⟩
    simp [round_double, hq]
  have hqpos : 0 < q := lt_of_le_of_ne hq0 (Ne.symm hq)
  have hqlt : q < n := by
    have : (n : ℚ) * (1 - 1 / (2 : ℚ) ^ (53 : Int)) < n := by
      have : 0 < (n : ℚ) * (1 / (2 : ℚ) ^ (53 : Int)) := by positivity
      linarith
    linarith
  obtain ⟨he1, _⟩ := exponent_spec q hq
  rw [abs_of_pos hqpos] at he1
  have he : exponent q < 53 := by
    have : (2 : ℚ) ^ exponent q < (2 : ℚ) ^ (53 : Int) := by linarith
    exact (zpow_lt_zpow_iff_right₀ (by norm_num : (1 : ℚ) < 2)).mp this
  set E := max (exponent q) (-1022) with hE
  have hE52 : E ≤ 52 := by omega
  have hElt : (2 : ℚ) ^ E < n := by
    rcases le_total (exponent q) (-1022) with h | h
    · have : E = -1022 := by omega
      rw [this]
      have h1 : (2 : ℚ) ^ (-1022 : Int) < 1 := by
        have := zpow_lt_zpow_right₀ (by norm_num : (1 : ℚ) < 2) (by norm_num : (-1022 : Int) < 0)
        simpa using this
      have h2 : (1 : ℚ) ≤ n := by exact_mod_cast hn0
      linarith
    · have : E = exponent q := by omega
      rw [this]
      linarith
  have hupos : (0 : ℚ) < (2 : ℚ) ^ (E - 52) := by positivity
  -- `n / u` is the natural number `n * 2 ^ (52 - E)`
  have hM : (n : ℚ) / (2 : ℚ) ^ (E - 52) = ((n * 2 ^ (52 - E).toNat : Nat) : ℚ) := by
    rw [div_eq_iff hupos.ne']
    push_cast
    rw [mul_assoc, ← zpow_natCast, ← zpow_add₀ (by norm_num : (2 : ℚ) ≠ 0),
      Int.toNat_of_nonneg (by omega)]
    simp
  have hu : (2 : ℚ) ^ (E - 52) * (2 : ℚ) ^ (53 : Int) = 2 * (2 : ℚ) ^ E := by
    rw [← zpow_add₀ (by norm_num : (2 : ℚ) ≠ 0)]
    have : E - 52 + 53 = E + 1 := by ring
    rw [this, zpow_add_one₀ (by norm_num : (2 : ℚ) ≠ 0)]
    ring
  -- the quotient stays more than one half below `n / u`
  have hgap : q / (2 : ℚ) ^ (E - 52) + 1 / 2 < (n : ℚ) / (2 : ℚ) ^ (E - 52) := by
    rw [div_add' _ _ _ hupos.ne', div_lt_div_iff_of_pos_right hupos]
    have h1 : (n : ℚ) * (1 / (2 : ℚ) ^ (53 : Int)) * (2 : ℚ) ^ (53 : Int) = n := by
      field_simp
    have h2 : (2 : ℚ) ^ (E - 52) / 2 < (n : ℚ) * (1 / (2 : ℚ) ^ (53 : Int)) := by
      rw [← mul_lt_mul_right h53, h1, div_mul_eq_mul_div, hu]
      linarith
    have : q + 1 / 2 * (2 : ℚ) ^ (E - 52) < n := by linarith
    linarith
  obtain ⟨hnear, _⟩ := round_half_even_near (q / (2 : ℚ) ^ (E - 52))
  have hrlt : round_half_even (q / (2 : ℚ) ^ (E - 52)) < ((n * 2 ^ (52 - E).toNat : Nat) : Int) := by
    have : (round_half_even (q / (2 : ℚ) ^ (E - 52)) : ℚ)
        < (((n * 2 ^ (52 - E).toNat : Nat) : Int) : ℚ) := by
      rw [Int.cast_natCast, ← hM]
      linarith
    exact_mod_cast this
  have hr0 : 0 ≤ round_half_even (q / (2 : ℚ) ^ (E - 52)) :=
    le_round_half_even _ 0 (by
      have : 0 ≤ q / (2 : ℚ) ^ (E - 52) := div_nonneg hq0 hupos.le
      simpa using this)
  have hy0 : (0 : ℚ) ≤ (round_half_even (q / (2 : ℚ) ^ (E - 52)) : ℚ) * (2 : ℚ) ^ (E - 52) :=
    mul_nonneg (by exact_mod_cast hr0) hupos.le
  have hyn : (round_half_even (q / (2 : ℚ) ^ (E - 52)) : ℚ) * (2 : ℚ) ^ (E - 52) < n := by
    have h1 : (round_half_even (q / (2 : ℚ) ^ (E - 52)) : ℚ)
        < (n : ℚ) / (2 : ℚ) ^ (E - 52) := by
      rw [hM]
      exact_mod_cast hrlt
    calc (round_half_even (q / (2 : ℚ) ^ (E - 52)) : ℚ) * (2 : ℚ) ^ (E - 52)
        < (n : ℚ) / (2 : ℚ) ^ (E - 52) * (2 : ℚ) ^ (E - 52) :=
          mul_lt_mul_of_pos_right h1 hupos
      _ = n := div_mul_cancel₀ _ hupos.ne'
  refine ⟨_, ?_, hy0, hyn⟩
  rw [round_double_of_ne q hq, ← hE, abs_of_nonneg hy0, if_neg]
  rw [not_le]
  have : (2 : ℚ) ^ (53 : Int) ≤ (2 : ℚ) ^ (1024 : Int) :=
    zpow_le_zpow_right₀ (by norm_num) (by norm_num)
  linarith

/-- Rounding stays between two integers of magnitude below `2^53` that
enclose the exact value. -/
theorem round_double_between (q : ℚ) (lo hi : Int) (hlo : (lo : ℚ) ≤ q) (hhi : q ≤ (hi : ℚ))
    (hb : -(2 : ℚ) ^ (53 : Int) < lo) (hb' : (hi : ℚ) < (2 : ℚ) ^ (53 : Int)) :
    ∃ y, round_double q = .fin y ∧ (lo : ℚ) ≤ y ∧ y ≤ (hi : ℚ) := by
  by_cases hq : q = 0
  · refine ⟨0, ?_, ?_, ?_⟩
    · simp [round_double, hq]
    · rw [hq] at hlo; exact hlo
    · rw [hq] at hhi; exact hhi
  obtain ⟨he1, _⟩ := exponent_spec q hq
  have habs : |q| < (2 : ℚ) ^ (53 : Int) := by
    rw [abs_lt]
    constructor <;> linarith
  have he : exponent q < 53 := by
    have : (2 : ℚ) ^ exponent q < (2 : ℚ) ^ (53 : Int) := by linarith
    exact (zpow_lt_zpow_iff_right₀ (by norm_num : (1 : ℚ) < 2)).mp this
  set E := max (exponent q) (-1022) with hE
  have hE52 : E ≤ 52 := by omega
  have hupos : (0 : ℚ) < (2 : ℚ) ^ (E - 52) := by positivity
  have hM : ∀ z : Int, (z : ℚ) / (2 : ℚ) ^ (E - 52) = ((z * 2 ^ (52 - E).toNat : Int) : ℚ) := by
    intro z
    rw [div_eq_iff hupos.ne']
    push_cast
    rw [mul_assoc, ← zpow_natCast, ← zpow_add₀ (by norm_num : (2 : ℚ) ≠ 0),
      Int.toNat_of_nonneg (by omega)]
    simp
  have h1 : lo * 2 ^ (52 - E).toNat ≤ round_half_even (q / (2 : ℚ) ^ (E - 52)) := by
    apply le_round_half_even
    rw [← hM, div_le_div_iff_of_pos_right hupos]
    exact hlo
  have h2 : round_half_even (q / (2 : ℚ) ^ (E - 52)) ≤ hi * 2 ^ (52 - E).toNat := by
    apply round_half_even_le
    rw [← hM, div_le_div_iff_of_pos_right hupos]
    exact hhi
  have hylo : (lo : ℚ) ≤ (round_half_even (q / (2 : ℚ) ^ (E - 52)) : ℚ) * (2 : ℚ) ^ (E - 52) := by
    rw [← div_le_iff₀ hupos, hM]
    exact_mod_cast h1
  have hyhi : (round_half_even (q / (2 : ℚ) ^ (E - 52)) : ℚ) * (2 : ℚ) ^ (E - 52) ≤ (hi : ℚ) := by
    rw [← le_div_iff₀ hupos, hM]
    exact_mod_cast h2
  refine ⟨_, ?_, hylo, hyhi⟩
  rw [round_double_of_ne q hq, ← hE, if_neg]
  rw [not_le, abs_lt]
  have : (2 : ℚ) ^ (53 : Int) ≤ (2 : ℚ) ^ (1024 : Int) :=
    zpow_le_zpow_right₀ (by norm_num) (by norm_num)
  constructor <;> linarith

/-- An integer of magnitude below `2^53` is a double. -/
theorem round_double_int (z : Int) (h1 : -(2 : ℚ) ^ (53 : Int) < z)
    (h2 : (z : ℚ) < (2 : ℚ) ^ (53 : Int)) : round_double (z : ℚ) = .fin (z : ℚ) := by
  obtain ⟨y, hy, a, b⟩ := round_double_between (z : ℚ) z z (le_refl _) (le_refl _) h1 h2
  rw [hy, le_antisymm b a]

/-- The largest double below 1 is `1 - 2^-53`. -/
theorem double_lt_one (r : ℚ) (hr : is_double r = true) (h1 : r < 1) :
    r ≤ 1 - 1 / (2 : ℚ) ^ (53 : Int) := by
  by_cases hhalf : r < 1 / 2
  · have : (1 : ℚ) / (2 : ℚ) ^ (53 : Int) ≤ 1 / 2 := by norm_num
    linarith
  have hpos : 0 < r := by
    have : (0 : ℚ) < 1 / 2 := by norm_num
    linarith
  have hq : r ≠ 0 := hpos.ne'
  obtain ⟨he1, he2⟩ := exponent_spec r hq
  rw [abs_of_pos hpos] at he1 he2
  have hlt0 : exponent r < 0 := by
    have : (2 : ℚ) ^ exponent r < (2 : ℚ) ^ (0 : Int) := by
      rw [zpow_zero]; linarith
    exact (zpow_lt_zpow_iff_right₀ (by norm_num : (1 : ℚ) < 2)).mp this
  have hge : -1 < exponent r + 1 := by
    have : (2 : ℚ) ^ (-1 : Int) < (2 : ℚ) ^ (exponent r + 1) := by
      have h2 : (2 : ℚ) ^ (-1 : Int) = 1 / 2 := by norm_num
      rw [h2]
      linarith
    exact (zpow_lt_zpow_iff_right₀ (by norm_num : (1 : ℚ) < 2)).mp this
  have hE : max (exponent r) (-1022) - 52 = -53 := by omega
  have hfix : round_double r = .fin r := by
    simpa [is_double] using hr
  rw [round_double_of_ne r hq, hE] at hfix
  have hex : ∃ N : Int, (N : ℚ) * (2 : ℚ) ^ (-53 : Int) = r := by
    split at hfix
    · simp at hfix
    · exact ⟨_, by simpa using hfix⟩
  obtain ⟨N, hy⟩ := hex
  have hu : (2 : ℚ) ^ (-53 : Int) = 1 / (2 : ℚ) ^ (53 : Int) := by
    rw [zpow_neg, one_div]
  have h53 : (0 : ℚ) < (2 : ℚ) ^ (53 : Int) := by positivity
  rw [hu] at hy
  have hN : (N : ℚ) < (2 : ℚ) ^ (53 : Int) := by
    have : (N : ℚ) * (1 / (2 : ℚ) ^ (53 : Int)) < 1 := by
      rw [hy]; exact h1
    rwa [mul_one_div, div_lt_one h53] at this
  have hN' : N ≤ 9007199254740992 - 1 := by
    have : N < 9007199254740992 := by
      rw [two_zpow_53] at hN
      exact_mod_cast hN
    omega
  have hN'' : (N : ℚ) ≤ (2 : ℚ) ^ (53 : Int) - 1 := by
    rw [two_zpow_53]
    exact_mod_cast hN'
  rw [← hy]
  calc (N : ℚ) * (1 / (2 : ℚ) ^ (53 : Int))
      ≤ ((2 : ℚ) ^ (53 : Int) - 1) * (1 / (2 : ℚ) ^ (53 : Int)) :=
        mul_le_mul_of_nonneg_right hN'' (by positivity)
    _ = 1 - 1 / (2 : ℚ) ^ (53 : Int) := by field_simp

/-- The index `Math.floor(r * n)` of a draw `r` lies in `[0, n)`. -/
theorem floor_draw (r : ℚ) (n : Nat) (hr : is_double r = true) (h0 : 0 ≤ r) (h1 : r < 1)
    (hn0 : 0 < n) (hn : (n : ℚ) < (2 : ℚ) ^ (53 : Int)) :
    ∃ y, round_double (r * (n : ℚ)) = .fin y ∧ 0 ≤ ⌊y⌋ ∧ ⌊y⌋ < (n : Int) := by
  have hr1 := double_lt_one r hr h1
  have hnpos : (0 : ℚ) ≤ n := Nat.cast_nonneg n
  obtain ⟨y, hy, hy0, hyn⟩ := round_double_lt (r * n) n (mul_nonneg h0 hnpos) hn0 hn (by
    rw [mul_comm]
    exact mul_le_mul_of_nonneg_left hr1 hnpos)
  refine ⟨y, hy, Int.floor_nonneg.mpr hy0, ?_⟩
  rw [Int.floor_lt]
  exact_mod_cast hyn

/-! ## Random integers -/

theorem two_zpow_51_lt : (2 : ℚ) ^ (51 : Nat) * 4 = (2 : ℚ) ^ (53 : Int) := by norm_num

theorem getRandomInt_int (a b : Int) (r : ℚ) (hab : a ≤ b) (ha : |a| ≤ 2 ^ 51)
    (hb : |b| ≤ 2 ^ 51) :
    getRandomInt a b r =
      match round_double (r * ((b - a + 1 : Int) : ℚ)) with
      | .fin y => round_double (((⌊y⌋ + a : Int) : ℚ))
      | .pos_inf => .pos_inf
      | .neg_inf => .neg_inf
      | .nan => .nan := by
  have ha' := abs_le.mp ha
  have hb' := abs_le.mp hb
  have h53 : (2 : ℚ) ^ (53 : Int) = 9007199254740992 := two_zpow_53
  have e1 : round_double ((b : ℚ) + -(a : ℚ)) = .fin ((b - a : Int) : ℚ) := by
    have := round_double_int (b - a) (by rw [h53]; exact_mod_cast (by omega : (-9007199254740992 : Int) < b - a))
      (by rw [h53]; exact_mod_cast (by omega : b - a < (9007199254740992 : Int)))
    rw [← this]
    congr 1
    push_cast
    ring
  have e2 : round_double (((b - a : Int) : ℚ) + 1) = .fin ((b - a + 1 : Int) : ℚ) := by
    have := round_double_int (b - a + 1)
      (by rw [h53]; exact_mod_cast (by omega : (-9007199254740992 : Int) < b - a + 1))
      (by rw [h53]; exact_mod_cast (by omega : b - a + 1 < (9007199254740992 : Int)))
    rw [← this]
    congr 1
    push_cast
    ring
  simp only [getRandomInt, Num.ceil, Num.floor, Num.sub, Num.neg, Num.add, Num.mul,
    Int.ceil_intCast, Int.floor_intCast, e1, e2]
  cases round_double (r * ((b - a + 1 : Int) : ℚ)) with
  | fin y =>
    simp only [Num.floor, Num.add]
    congr 1
    push_cast
    ring
  | pos_inf => rfl
  | neg_inf => rfl
  | nan => rfl

theorem getRandomInt_safe (a b : Int) (r : ℚ) (hab : a ≤ b) (ha : |a| ≤ 2 ^ 51)
    (hb : |b| ≤ 2 ^ 51) (hr : is_double r = true) (h0 : 0 ≤ r) (h1 : r < 1) :
    ∃ n : Int, getRandomInt a b r = .fin n ∧ a ≤ n ∧ n ≤ b := by
  have ha' := abs_le.mp ha
  have hb' := abs_le.mp hb
  have h53 : (2 : ℚ) ^ (53 : Int) = 9007199254740992 := two_zpow_53
  have hN : ((b - a + 1 : Int) : ℚ) = (((b - a + 1).toNat : Nat) : ℚ) := by
    have : ((b - a + 1).toNat : Int) = b - a + 1 := Int.toNat_of_nonneg (by omega)
    exact_mod_cast this.symm
  obtain ⟨y, hy, hk0, hk1⟩ := floor_draw r (b - a + 1).toNat hr h0 h1 (by omega) (by
    rw [h53]
    exact_mod_cast (by omega : (b - a + 1).toNat < 9007199254740992))
  rw [getRandomInt_int a b r hab ha hb, hN, hy]
  refine ⟨⌊y⌋ + a, ?_, by omega, by omega⟩
  exact round_double_int (⌊y⌋ + a)
    (by rw [h53]; exact_mod_cast (by omega : (-9007199254740992 : Int) < ⌊y⌋ + a))
    (by rw [h53]; exact_mod_cast (by omega : ⌊y⌋ + a < (9007199254740992 : Int)))

set_option maxRecDepth 100000 in
theorem largest_draw_is_double : is_double (1 - 1 / (2 : ℚ) ^ (53 : Int)) = true := by
  have : (1 - 1 / (2 : ℚ) ^ (53 : Int)) = 9007199254740991 / 9007199254740992 := by norm_num
  rw [this]
  decide!

theorem getRandomInt_ends (a b : Int) (hab : a ≤ b) (ha : |a| ≤ 2 ^ 51) (hb : |b| ≤ 2 ^ 51) :
    getRandomInt a b 0 = .fin a ∧
    getRandomInt a b (1 - 1 / (2 : ℚ) ^ (53 : Int)) = .fin b := by
  have ha' := abs_le.mp ha
  have hb' := abs_le.mp hb
  have h53 : (2 : ℚ) ^ (53 : Int) = 9007199254740992 := two_zpow_53
  constructor
  · rw [getRandomInt_int a b 0 hab ha hb]
    have : round_double (0 * ((b - a + 1 : Int) : ℚ)) = .fin 0 := by
      simp [round_double]
    rw [this]
    simp only [Int.floor_zero, zero_add]
    exact round_double_int a
      (by rw [h53]; exact_mod_cast (by omega : (-9007199254740992 : Int) < a))
      (by rw [h53]; exact_mod_cast (by omega : a < (9007199254740992 : Int)))
  · have hN : ((b - a + 1 : Int) : ℚ) = (((b - a + 1).toNat : Nat) : ℚ) := by
      have : ((b - a + 1).toNat : Int) = b - a + 1 := Int.toNat_of_nonneg (by omega)
      exact_mod_cast this.symm
    have hr0 : (0 : ℚ) ≤ 1 - 1 / (2 : ℚ) ^ (53 : Int) := by norm_num
    have hr1 : 1 - 1 / (2 : ℚ) ^ (53 : Int) < (1 : ℚ) := by norm_num
    obtain ⟨y, hy, hk0, hk1⟩ := floor_draw (1 - 1 / (2 : ℚ) ^ (53 : Int)) (b - a + 1).toNat
      largest_draw_is_double hr0 hr1 (by omega) (by
        rw [h53]
        exact_mod_cast (by omega : (b - a + 1).toNat < 9007199254740992))
    have hnq : ((b - a + 1 : Int) : ℚ) ≤ 9007199254740992 := by
      exact_mod_cast (by omega : b - a + 1 ≤ (9007199254740992 : Int))
    obtain ⟨y', hy', hlo, _⟩ := round_double_between
      ((1 - 1 / (2 : ℚ) ^ (53 : Int)) * ((b - a + 1 : Int) : ℚ)) (b - a) (b - a + 1)
      (by
        rw [h53]
        have : ((b - a : Int) : ℚ) = ((b - a + 1 : Int) : ℚ) - 1 := by push_cast; ring
        rw [this]
        have h0n : (0 : ℚ) ≤ ((b - a + 1 : Int) : ℚ) := by
          exact_mod_cast (by omega : (0 : Int) ≤ b - a + 1)
        nlinarith)
      (by
        have h0n : (0 : ℚ) ≤ ((b - a + 1 : Int) : ℚ) := by
          exact_mod_cast (by omega : (0 : Int) ≤ b - a + 1)
        have : (0 : ℚ) ≤ 1 / (2 : ℚ) ^ (53 : Int) := by positivity
        nlinarith)
      (by rw [h53]; exact_mod_cast (by omega : (-9007199254740992 : Int) < b - a))
      (by rw [h53]; exact_mod_cast (by omega : b - a + 1 < (9007199254740992 : Int)))
    rw [hN] at hy'
    rw [hy] at hy'
    have hyy : y = y' := by injection hy'
    have hfl : ⌊y⌋ = b - a := by
      have h1 : b - a ≤ ⌊y⌋ := Int.le_floor.mpr (by rw [hyy]; exact hlo)
      omega
    rw [getRandomInt_int a b _ hab ha hb, hN, hy]
    simp only [hfl]
    have : b - a + a = b := by ring
    rw [this]
    exact round_double_int b
      (by rw [h53]; exact_mod_cast (by omega : (-9007199254740992 : Int) < b))
      (by rw [h53]; exact_mod_cast (by omega : b < (9007199254740992 : Int)))

set_option maxRecDepth 100000 in
/-- C10 on the code: `getRandomInt` computes in doubles.  With the doubles
`min = -2^1023` and `max = 2^1023` (so `ceil(min) ≤ floor(max)`) the
difference `max - min` overflows: the draw `1/2` gives `Infinity` and the
draw `0` gives `NaN`, not an integer between `min` and `max`.  With the bounds
100 and 300 of the source and the draw `56014920738439 / 2^51` the product is
rounded up to 5 and the result is 105.  For integer bounds of magnitude at
most `2^51` the result is an integer `n` with `min ≤ n ≤ max` for every draw,
the draw `0` gives `min` and the draw `1 - 2^-53` gives `max`. -/
theorem getRandomInt_overflow :
    is_double (pow2 1023) = true ∧ is_double (-(pow2 1023)) = true ∧
    ⌈-(pow2 1023)⌉ ≤ ⌊pow2 1023⌋ ∧
    getRandomInt (-(pow2 1023)) (pow2 1023) (1 / 2) = .pos_inf ∧
    getRandomInt (-(pow2 1023)) (pow2 1023) 0 = .nan ∧
    getRandomInt 100 300 (56014920738439 / 2251799813685248) = .fin 105 ∧
    (∀ (a b : Int) (r : ℚ), a ≤ b → |a| ≤ 2 ^ 51 → |b| ≤ 2 ^ 51 →
      is_double r = true → 0 ≤ r → r < 1 →
      ∃ n : Int, getRandomInt a b r = .fin n ∧ a ≤ n ∧ n ≤ b) ∧
    (∀ a b : Int, a ≤ b → |a| ≤ 2 ^ 51 → |b| ≤ 2 ^ 51 →
      getRandomInt a b 0 = .fin a ∧
      getRandomInt a b (1 - 1 / (2 : ℚ) ^ (53 : Int)) = .fin b) := by
  refine ⟨by decide!, by decide!, by decide!, by decide!, by decide!, by decide!, ?_, ?_⟩
  · intro a b r hab ha hb hr h0 h1
    exact getRandomInt_safe a b r hab ha hb hr h0 h1
  · intro a b hab ha hb
    exact getRandomInt_ends a b hab ha hb


/-! ## The engine's candidates -/

theorem push_candidate_spec (cs : List String) (obj : Info)
    (hpv : obj.depth > 6 → obj.pv ≠ none) :
    ∃ cs', push_candidate cs obj = some cs' ∧
      (∀ m, m ∈ cs' ↔ m ∈ cs ∨ (obj.depth > 6 ∧ obj.pv.map first_move = some m)) ∧
      (cs.Nodup → cs'.Nodup) ∧ cs'.length ≤ cs.length + 1 := by
  unfold push_candidate
  by_cases hd : obj.depth > 6
  · cases hp : obj.pv with
    | none => exact absurd hp (hpv hd)
    | some pv =>
      by_cases hc : first_move pv ∈ cs
      · have hc' : cs.contains (first_move pv) = true := List.elem_iff.mpr hc
        refine ⟨cs, by simp only [hd, hc', if_true], ?_, id, by omega⟩
        intro m
        simp only [hd, Option.map_some', Option.some.injEq, true_and]
        constructor
        · exact Or.inl
        · rintro (h | h)
          · exact h
          · exact h ▸ hc
      · have hc' : ¬ cs.contains (first_move pv) = true := fun h => hc (List.elem_iff.mp h)
        refine ⟨cs ++ [first_move pv], by simp only [hd, hc', if_true, Bool.false_eq_true, if_false], ?_, ?_, by simp⟩
        · intro m
          simp only [hd, Option.map_some', Option.some.injEq, true_and, List.mem_append,
            List.mem_singleton]
          constructor
          · rintro (h | h)
            · exact Or.inl h
            · exact Or.inr h.symm
          · rintro (h | h)
            · exact Or.inl h
            · exact Or.inr h.symm
        · intro hn
          rw [List.nodup_append]
          refine ⟨hn, List.nodup_singleton _, ?_⟩
          intro a ha hb
          rw [List.mem_singleton] at hb
          exact hc (hb ▸ ha)
  · refine ⟨cs, by simp only [hd, if_false], ?_, id, by omega⟩
    intro m
    simp only [hd, false_and, or_false]

theorem candidates_fold_spec (info : List Info) (acc : List String)
    (hpv : ∀ obj ∈ info, obj.depth > 6 → obj.pv ≠ none) :
    ∃ cs, info.foldlM push_candidate acc = some cs ∧
      (∀ m, m ∈ cs ↔ m ∈ acc ∨
        ∃ obj ∈ info, obj.depth > 6 ∧ obj.pv.map first_move = some m) ∧
      (acc.Nodup → cs.Nodup) ∧ cs.length ≤ acc.length + info.length := by
  induction info generalizing acc with
  | nil => exact ⟨acc, rfl, by simp, id, by simp⟩
  | cons obj rest ih =>
    obtain ⟨cs', h1, h2, h3, h4⟩ :=
      push_candidate_spec acc obj (hpv obj (List.mem_cons_self _ _))
    obtain ⟨cs, g1, g2, g3, g4⟩ :=
      ih cs' (fun o ho => hpv o (List.mem_cons_of_mem _ ho))
    refine ⟨cs, ?_, ?_, fun hn => g3 (h3 hn), ?_⟩
    · rw [List.foldlM_cons, h1]
      exact g1
    · intro m
      rw [g2, h2]
      simp only [List.mem_cons, exists_eq_or_imp, or_assoc]
    · simp only [List.length_cons]
      omega

theorem candidates_of_spec (info : List Info)
    (hpv : ∀ obj ∈ info, obj.depth > 6 → obj.pv ≠ none) :
    ∃ cs, candidates_of info = some cs ∧
      (∀ m, m ∈ cs ↔ ∃ obj ∈ info, obj.depth > 6 ∧ obj.pv.map first_move = some m) ∧
      cs.Nodup ∧ cs.length ≤ info.length := by
  obtain ⟨cs, h1, h2, h3, h4⟩ := candidates_fold_spec info [] hpv
  refine ⟨cs, h1, ?_, h3 List.nodup_nil, by simpa using h4⟩
  intro m
  rw [h2]
  simp

theorem pick_mem (cs : List String) (r : ℚ) (hr : is_double r = true) (h0 : 0 ≤ r)
    (h1 : r < 1) (hne : cs ≠ []) (hlen : (cs.length : ℚ) < (2 : ℚ) ^ (53 : Int)) :
    ∃ m, pick cs r = some m ∧ m ∈ cs := by
  have hpos : 0 < cs.length := List.length_pos.mpr hne
  obtain ⟨y, hy, hk0, hk1⟩ := floor_draw r cs.length hr h0 h1 hpos hlen
  have hlt : ⌊y⌋.toNat < cs.length := by omega
  refine ⟨cs[⌊y⌋.toNat], ?_, List.getElem_mem _⟩
  simp only [pick, hy, hk0, if_true]
  exact List.getElem?_eq_getElem hlt

theorem pick_nil (r : ℚ) : pick [] r = none := by
  unfold pick
  split
  · split <;> simp
  · rfl

theorem candidates_of_eq_nil (info : List Info) (h : ∀ obj ∈ info, obj.depth ≤ 6) :
    candidates_of info = some [] := by
  obtain ⟨cs, h1, h2, _, _⟩ := candidates_of_spec info (fun obj ho hd => by
    have := h obj ho
    omega)
  rw [h1]
  congr 1
  apply List.eq_nil_iff_forall_not_mem.mpr
  intro m hm
  obtain ⟨obj, ho, hd, _⟩ := (h2 m).mp hm
  have := h obj ho
  omega

/-- C7 (as amended): for every engine result with fewer than `2^32` records
in which every info record with depth greater than 6 carries a `pv`, and
every draw `r` (a double) with `0 ≤ r < 1`, if some info record has depth
greater than 6 then `get_stockfish_move` returns a move of the deduplicated
candidate list, which is the first move of the principal variation of some
record with depth greater than 6; and if all records with depth greater than
6 share the same first move `m`, the move returned is `m` whatever the
draw. -/
theorem get_stockfish_move_eligible (info : List Info) (r : ℚ)
    (hr : is_double r = true) (h0 : 0 ≤ r) (h1 : r < 1) (hlen : info.length < 2 ^ 32)
    (hpv : ∀ obj ∈ info, obj.depth > 6 → obj.pv ≠ none)
    (h : ∃ obj ∈ info, obj.depth > 6) :
    (∃ cs m, candidates_of info = some cs ∧ get_stockfish_move info r = some (some m) ∧
      m ∈ cs ∧ ∃ obj ∈ info, obj.depth > 6 ∧ obj.pv.map first_move = some m) ∧
    (∀ m, (∀ obj ∈ info, obj.depth > 6 → obj.pv.map first_move = some m) →
      get_stockfish_move info r = some (some m)) := by
  obtain ⟨cs, hcs, hmem, _, hl⟩ := candidates_of_spec info hpv
  have hne : cs ≠ [] := by
    obtain ⟨obj, ho, hd⟩ := h
    cases hp : obj.pv with
    | none => exact absurd hp (hpv obj ho hd)
    | some pv =>
      intro hnil
      have : first_move pv ∈ cs := (hmem _).mpr ⟨obj, ho, hd, by rw [hp]; rfl⟩
      rw [hnil] at this
      exact List.not_mem_nil _ this
  have hlen' : (cs.length : ℚ) < (2 : ℚ) ^ (53 : Int) := by
    have h2 : cs.length < 2 ^ 53 := by
      have : (2 : Nat) ^ 32 ≤ 2 ^ 53 := Nat.pow_le_pow_right (by norm_num) (by norm_num)
      omega
    have : ((cs.length : Nat) : ℚ) < ((9007199254740992 : Nat) : ℚ) := by
      have h3 : cs.length < 9007199254740992 := by omega
      exact_mod_cast h3
    rw [two_zpow_53]
    exact_mod_cast this
  obtain ⟨m, hm, hin⟩ := pick_mem cs r hr h0 h1 hne hlen'
  have hget : get_stockfish_move info r = some (some m) := by
    simp [get_stockfish_move, hcs, hm]
  have hex := (hmem m).mp hin
  refine ⟨⟨cs, m, hcs, hget, hin, hex⟩, ?_⟩
  intro m' hall
  obtain ⟨obj, ho, hd, hf⟩ := hex
  have := hall obj ho hd
  rw [hf] at this
  rw [hget, Option.some.inj this]

set_option maxRecDepth 100000 in
/-- C7 (as amended) on a result with two deep records that both start with
`e2e4` and a shallow record that starts with `a2a3`, at the draw `1/2`: the
move is `e2e4`. -/
theorem get_stockfish_move_eligible_witness :
    get_stockfish_move
        [⟨8, some "e2e4 e7e5"⟩, ⟨5, some "a2a3 e7e5"⟩, ⟨9, some "e2e4 c7c5"⟩] (1 / 2)
      = some (some "e2e4") :=
  (get_stockfish_move_eligible
    [⟨8, some "e2e4 e7e5"⟩, ⟨5, some "a2a3 e7e5"⟩, ⟨9, some "e2e4 c7c5"⟩] (1 / 2)
    (by decide!) (by norm_num) (by norm_num) (by decide) (by decide)
    ⟨⟨8, some "e2e4 e7e5"⟩, by simp, by decide⟩).2 "e2e4" (by decide)

/-- C7 fails as stated: on a result with a record of depth 8 and principal
variation `e2e4 e7e5` and a record of depth 20 without `pv` (the engine
library builds one from `info depth 20 currmove e2e4 currmovenumber 1`),
`obj.pv.split` throws and `get_stockfish_move` returns no move. -/
theorem get_stockfish_move_throws :
    (∃ obj ∈ [(⟨8, some "e2e4 e7e5"⟩ : Info), ⟨20, none⟩], obj.depth > 6) ∧
    get_stockfish_move [⟨8, some "e2e4 e7e5"⟩, ⟨20, none⟩] (1 / 2) = none ∧
    get_stockfish_move [⟨20, none⟩] 0 = none := by
  refine ⟨⟨⟨8, some "e2e4 e7e5"⟩, by simp, by decide⟩, by decide!, by decide!⟩

/-- C5 (as amended): for every engine result in which no info record has
depth greater than 6, the candidate list is empty and `get_stockfish_move`
returns `undefined` for every draw; there is no retry and no stall report:
`get_move_selectors` throws on that value, so that either place where a move
is played ends with the exception after exactly one search and no click. -/
theorem empty_candidates_undefined (info : List Info) (r : ℚ)
    (h : ∀ obj ∈ info, obj.depth ≤ 6) :
    candidates_of info = some [] ∧
    get_stockfish_move info r = some none ∧
    (∀ is_white : Bool, get_move_selectors none is_white = none) ∧
    (∀ (cfg : Config) (s : State) (t : Turn), t.info = info → t.rnd = r →
      (our_term_branch cfg s t).phase = .crashed ∧
      (our_term_branch cfg s t).log = s.log ++ [search_action cfg s.moves_algebraic t]) ∧
    (∀ (cfg : Config) (s : State) (t : Turn), t.info = info → t.rnd = r →
      s.white = true → s.moves_algebraic = [] →
      (first_move_branch cfg s t).phase = .crashed ∧
      (first_move_branch cfg s t).log = s.log ++ [search_action cfg s.moves_algebraic t]) := by
  have hnil := candidates_of_eq_nil info h
  have hnone : get_stockfish_move info r = some none := by
    rw [get_stockfish_move, hnil, Option.map_some', pick_nil]
  refine ⟨hnil, hnone, fun w => rfl, ?_, ?_⟩
  · intro cfg s t hi hr
    subst hi hr
    simp [our_term_branch, hnone, get_move_selectors]
  · intro cfg s t hi hr hw hm
    subst hi hr
    simp [first_move_branch, hnone, get_move_selectors, hw, hm]

/-- C5 (as amended) on a result whose records have depth 6 and 3. -/
theorem empty_candidates_undefined_witness :
    get_stockfish_move [⟨6, some "e2e4 e7e5"⟩, ⟨3, some "d2d4"⟩] (1 / 2) = some none :=
  (empty_candidates_undefined [⟨6, some "e2e4 e7e5"⟩, ⟨3, some "d2d4"⟩] (1 / 2)
    (by decide)).2.1

set_option maxRecDepth 100000 in
/-- C5 fails as stated: on a result whose records have depth 6 and 3 the
move selected is `undefined`; as White on an empty history one pass of the
game loop searches once, pushes `undefined` on the move history and ends with
the exception thrown by the coordinate translation. -/
theorem empty_candidates_not_guarded :
    get_stockfish_move shallow.first.info shallow.first.rnd = some none ∧
    (step config opening shallow).phase = .crashed ∧
    (step config opening shallow).moves_algebraic = [none] ∧
    (step config opening shallow).log = opening.log ++ [.search [] (.fin 100)] := by
  decide!

/-! ## The match loop -/

theorem first_move_branch_frame (cfg : Config) (s : State) (t : Turn) :
    (first_move_branch cfg s t).i = s.i ∧
    ((first_move_branch cfg s t).phase = s.phase ∨
      (first_move_branch cfg s t).phase = .crashed) ∧
    counters (first_move_branch cfg s t) = counters s := by
  by_cases hw : s.white = true <;> by_cases hm : s.moves_algebraic = [] <;>
    cases hget : get_stockfish_move t.info t.rnd with
    | none => simp [first_move_branch, counters, search_action, hw, hm, hget]
    | some smove =>
      cases hsel : get_move_selectors smove true <;>
        cases hsrc : t.click_src_ok <;> cases hdst : t.click_dst_ok <;>
        simp [first_move_branch, counters, search_action, hw, hm, hget, hsel, hsrc, hdst]

theorem our_term_branch_frame (cfg : Config) (s : State) (t : Turn) :
    (our_term_branch cfg s t).i = s.i ∧
    (our_term_branch cfg s t).moves_algebraic = s.moves_algebraic ∧
    ((our_term_branch cfg s t).phase = s.phase ∨
      (our_term_branch cfg s t).phase = .crashed) ∧
    counters (our_term_branch cfg s t) = counters s := by
  cases hget : get_stockfish_move t.info t.rnd with
  | none => simp [our_term_branch, counters, search_action, hget]
  | some smove =>
    cases hsel : get_move_selectors smove s.white <;>
      cases hsrc : t.click_src_ok <;>
      simp [our_term_branch, counters, search_action, hget, hsel, hsrc]

theorem result_branch_frame (cfg : Config) (s : State) (e : Ext) :
    (result_branch cfg s e).log.count Action.seek = s.log.count Action.seek ∧
    (((result_branch cfg s e).phase = s.phase ∧ (result_branch cfg s e).i = s.i) ∨
      ((result_branch cfg s e).phase = .seeking ∧ (result_branch cfg s e).i = s.i + 1)) ∧
    (cfg.only_one_game_per_player = true →
      counters (result_branch cfg s e) = counters s) := by
  cases hr : e.result_wrap with
  | none => simp [result_branch, hr]
  | some msg =>
    by_cases hm : msg = "" <;> cases ho : cfg.only_one_game_per_player <;>
      cases hn : e.nav_ok <;>
      simp [result_branch, counters, hr, hm, ho, hn]

theorem poll_branch_frame (cfg : Config) (s : State) (e : Ext) :
    (poll_branch cfg s e).log.count Action.seek = s.log.count Action.seek ∧
    (((poll_branch cfg s e).phase = s.phase ∧ (poll_branch cfg s e).i = s.i) ∨
      (poll_branch cfg s e).phase = .crashed ∨
      ((poll_branch cfg s e).phase = .seeking ∧ (poll_branch cfg s e).i = s.i + 1)) ∧
    (cfg.only_one_game_per_player = true →
      counters (poll_branch cfg s e) = counters s) := by
  cases hl : get_last_move e.is_white e.last_moves with
  | none => simp [poll_branch, counters, hl]
  | some last_move =>
    cases hnew : is_new_last_move s.moves_algebraic last_move with
    | false =>
      obtain ⟨h1, h2, h3⟩ := result_branch_frame cfg s e
      simp only [poll_branch, hl, hnew, Bool.false_eq_true, if_false]
      exact ⟨h1, by tauto, h3⟩
    | true =>
      cases hterm : our_term s.white (record_last_move s.moves_algebraic last_move).length with
      | false => simp [poll_branch, counters, hl, hnew, hterm]
      | true =>
        obtain ⟨h1, _, h3, h4⟩ := our_term_branch_frame cfg
          { s with moves_algebraic := record_last_move s.moves_algebraic last_move } e.reply
        simp only [poll_branch, hl, hnew, hterm, if_true]
        simp only [counters, Prod.mk.injEq] at h4
        refine ⟨h4.1, ?_, fun _ => ?_⟩
        · rcases h3 with h3 | h3
          · exact Or.inl ⟨h3, h1⟩
          · exact Or.inr (Or.inl h3)
        · simp only [counters, Prod.mk.injEq]
          exact h4

theorem play_step_frame (cfg : Config) (s : State) (e : Ext) (hp : s.phase = .playing) :
    (play_step cfg s e).log.count Action.seek = s.log.count Action.seek ∧
    (((play_step cfg s e).phase = .playing ∧ (play_step cfg s e).i = s.i) ∨
      (play_step cfg s e).phase = .crashed ∨
      ((play_step cfg s e).phase = .seeking ∧ (play_step cfg s e).i = s.i + 1)) ∧
    (cfg.only_one_game_per_player = true →
      counters (play_step cfg s e) = counters s) := by
  obtain ⟨h1, h2, h3⟩ := first_move_branch_frame cfg s e.first
  have h3' := h3
  simp only [counters, Prod.mk.injEq] at h3'
  rcases h2 with h2 | h2
  · rw [hp] at h2
    obtain ⟨g1, g2, g3⟩ := poll_branch_frame cfg (first_move_branch cfg s e.first) e
    have hstep : play_step cfg s e = poll_branch cfg (first_move_branch cfg s e.first) e := by
      simp only [play_step, h2]
    rw [hstep]
    rw [h2, h1] at g2
    exact ⟨g1.trans h3'.1, g2, fun ho => (g3 ho).trans h3⟩
  · have hstep : play_step cfg s e = first_move_branch cfg s e.first := by
      simp only [play_step, h2]
    rw [hstep]
    exact ⟨h3'.1, Or.inr (Or.inl h2), fun _ => h3⟩

theorem seeks_invariant (cfg : Config) (s : State) (e : Ext)
    (h : (s.phase = .seeking → seeks_made s = s.i ∧ s.i ≤ cfg.maxGames) ∧
      (s.phase = .playing → seeks_made s = s.i + 1 ∧ s.i < cfg.maxGames) ∧
      seeks_made s ≤ cfg.maxGames) :
    ((step cfg s e).phase = .seeking →
        seeks_made (step cfg s e) = (step cfg s e).i ∧ (step cfg s e).i ≤ cfg.maxGames) ∧
      ((step cfg s e).phase = .playing →
        seeks_made (step cfg s e) = (step cfg s e).i + 1 ∧ (step cfg s e).i < cfg.maxGames) ∧
      seeks_made (step cfg s e) ≤ cfg.maxGames := by
  obtain ⟨hs, hpl, hle⟩ := h
  cases hp : s.phase with
  | seeking =>
    obtain ⟨hs1, hs2⟩ := hs hp
    simp only [seeks_made] at hs1 ⊢
    by_cases hi : s.i < cfg.maxGames <;> cases hn : e.nav_ok <;>
      simp [step, seek_step, hp, hi, hn, List.count_append] <;> omega
  | playing =>
    obtain ⟨hp1, hp2⟩ := hpl hp
    obtain ⟨g1, g2, _⟩ := play_step_frame cfg s e hp
    simp only [seeks_made] at hp1 hle ⊢
    simp only [step, hp]
    rw [g1]
    rcases g2 with ⟨g2, g3⟩ | g2 | ⟨g2, g3⟩
    · simp [g2, g3]; omega
    · simp [g2]; omega
    · simp [g2, g3]; omega
  | finished => simpa [step, hp] using hle
  | crashed => simpa [step, hp] using hle

theorem seeks_invariant_run (cfg : Config) (es : List Ext) (s : State)
    (h : (s.phase = .seeking → seeks_made s = s.i ∧ s.i ≤ cfg.maxGames) ∧
      (s.phase = .playing → seeks_made s = s.i + 1 ∧ s.i < cfg.maxGames) ∧
      seeks_made s ≤ cfg.maxGames) :
    seeks_made (es.foldl (step cfg) s) ≤ cfg.maxGames := by
  induction es generalizing s with
  | nil => exact h.2.2
  | cons e rest ih => exact ih _ (seeks_invariant cfg s e h)

theorem seeks_le_maxGames (cfg : Config) (es : List Ext) :
    seeks_made (run cfg es) ≤ cfg.maxGames := by
  apply seeks_invariant_run
  simp [init, seeks_made]

theorem only_one_step (cfg : Config) (ho : cfg.only_one_game_per_player = true)
    (s : State) (e : Ext)
    (h : s.log.count Action.rematch = 0 ∧ games_started s ≤ seeks_made s) :
    (step cfg s e).log.count Action.rematch = 0 ∧
      games_started (step cfg s e) ≤ seeks_made (step cfg s e) := by
  obtain ⟨h1, h2⟩ := h
  simp only [games_started, seeks_made] at h2 ⊢
  cases hp : s.phase with
  | seeking =>
    by_cases hi : s.i < cfg.maxGames <;> cases hn : e.nav_ok <;>
      simp [step, seek_step, hp, hi, hn, List.count_append, h1] <;> omega
  | playing =>
    obtain ⟨_, _, g3⟩ := play_step_frame cfg s e hp
    have g := g3 ho
    simp only [counters, Prod.mk.injEq] at g
    simp only [step, hp]
    rw [g.1, g.2.1, g.2.2]
    exact ⟨h1, h2⟩
  | finished => simpa [step, hp] using ⟨h1, h2⟩
  | crashed => simpa [step, hp] using ⟨h1, h2⟩

theorem only_one_run (cfg : Config) (ho : cfg.only_one_game_per_player = true)
    (es : List Ext) (s : State)
    (h : s.log.count Action.rematch = 0 ∧ games_started s ≤ seeks_made s) :
    (es.foldl (step cfg) s).log.count Action.rematch = 0 ∧
      games_started (es.foldl (step cfg) s) ≤ seeks_made (es.foldl (step cfg) s) := by
  induction es generalizing s with
  | nil => exact h
  | cons e rest ih => exact ih _ (only_one_step cfg ho s e h)

/-- C9 (as amended): when `config.only_one_game_per_player` is true, then
for every `maxGames` and every sequence of outside inputs no rematch is ever
offered, and at most `maxGames` seeks are made and games started; once a
game's result is read the game loop is left for the next pass of the match
loop (`i + 1`), which seeks a new opponent when `i + 1 < maxGames` and stops
only otherwise, or when a seek times out. -/
theorem only_one_game_policy (cfg : Config) (ho : cfg.only_one_game_per_player = true) :
    (∀ es : List Ext, Action.rematch ∉ (run cfg es).log ∧
      games_started (run cfg es) ≤ seeks_made (run cfg es) ∧
      seeks_made (run cfg es) ≤ cfg.maxGames) ∧
    (∀ (s : State) (e : Ext) (msg : String), e.result_wrap = some msg → msg ≠ "" →
      result_branch cfg s e = { s with phase := .seeking, i := s.i + 1 }) ∧
    (∀ (s : State) (e : Ext), s.phase = .seeking → s.i < cfg.maxGames →
      (step cfg s e).log = s.log ++ Action.seek :: (if e.nav_ok then [Action.game_start] else []) ∧
      (step cfg s e).phase = (if e.nav_ok then Phase.playing else Phase.finished)) ∧
    (∀ (s : State) (e : Ext), s.phase = .seeking → ¬ s.i < cfg.maxGames →
      step cfg s e = { s with phase := .finished }) := by
  refine ⟨fun es => ?_, ?_, ?_, ?_⟩
  · obtain ⟨h1, h2⟩ := only_one_run cfg ho es init (by simp [init, games_started, seeks_made])
    exact ⟨fun hmem => by
      have := List.count_pos_iff.mpr hmem
      unfold run at this
      omega, h2, seeks_le_maxGames cfg es⟩
  · intro s e msg hr hm
    simp [result_branch, hr, hm, ho]
  · intro s e hp hi
    cases hn : e.nav_ok <;> simp [step, seek_step, hp, hi, hn]
  · intro s e hp hi
    simp [step, seek_step, hp, hi]

set_option maxRecDepth 100000 in
/-- C9 fails as stated: with `maxGames = 2` and one game per player, after
the result of the first game is read the match loop is back at its seek, and
on the next pass it seeks again and starts a second game. -/
theorem only_one_game_seeks_again :
    (run ⟨2, true, (100, 300)⟩ [quiet, game_over]).phase = .seeking ∧
    seeks_made (run ⟨2, true, (100, 300)⟩ [quiet, game_over]) = 1 ∧
    games_started (run ⟨2, true, (100, 300)⟩ [quiet, game_over]) = 1 ∧
    seeks_made (run ⟨2, true, (100, 300)⟩ [quiet, game_over, quiet]) = 2 ∧
    games_started (run ⟨2, true, (100, 300)⟩ [quiet, game_over, quiet]) = 2 := by
  decide!

/-- C9 (as amended) for `maxGames = 2`: no rematch is offered on the two
passes `quiet`, `game_over`. -/
theorem only_one_game_policy_witness :
    Action.rematch ∉ (run ⟨2, true, (100, 300)⟩ [quiet, game_over]).log :=
  ((only_one_game_policy ⟨2, true, (100, 300)⟩ rfl).1 [quiet, game_over]).1

set_option maxRecDepth 100000 in
/-- C4 on the code: with `maxGames = 1` and rematches allowed, one seek
followed by two accepted rematches starts three games; the loop counter
counts seeks only, so accepted rematches are not bounded by `maxGames`. -/
theorem rematches_exceed_maxGames :
    games_started (run ⟨1, false, (100, 300)⟩ [quiet, game_over, game_over]) = 3 ∧
    seeks_made (run ⟨1, false, (100, 300)⟩ [quiet, game_over, game_over]) = 1 ∧
    (run ⟨1, false, (100, 300)⟩ [quiet, game_over, game_over]).phase = .playing := by
  decide!

set_option maxRecDepth 100000 in
/-- C3 on the code: we play Black and the page shows White's short castling
as `e1h1`.  The first poll pushes `e1g1`; the second poll, on the same page,
compares the unrewritten `e1h1` with the stored `e1g1` and pushes `e1g1`
again.  A move that the rewrite leaves unchanged is pushed at most once. -/
theorem stale_castling_pushed_twice :
    get_last_move castled.is_white castled.last_moves = some (some "e1h1") ∧
    (step config before_castling castled).moves_algebraic =
      before_castling.moves_algebraic ++ [some "e1g1"] ∧
    (step config (step config before_castling castled) castled).moves_algebraic =
      before_castling.moves_algebraic ++ [some "e1g1", some "e1g1"] ∧
    record_last_move (record_last_move [] (some "e8h8")) (some "e8h8") =
      [some "e8g8", some "e8g8"] ∧
    (∀ (moves : List (Option String)) (m : String), castling_rewrite m = m →
      record_last_move (record_last_move moves (some m)) (some m) =
        record_last_move moves (some m)) := by
  refine ⟨by decide!, by decide!, by decide!, by decide!, ?_⟩
  intro moves m hm
  by_cases hnew : is_new_last_move moves (some m) = true
  · have h2 : is_new_last_move (moves ++ [some m]) (some m) = false := by
      simp [is_new_last_move, last_elem]
    simp [record_last_move, hnew, hm, h2]
  · simp [record_last_move, hnew]

set_option maxRecDepth 100000 in
/-- C8 on the code: as White on an empty history, when the click on the
source square of the chosen move `e2e4` is rejected, the move is already on
the history and the exception ends the main function.  In the other place
where a move is played the clicks are inside a `try` and the move is not
pushed: there the phase and the history are unchanged whenever a move was
translated. -/
theorem first_move_click_rejected :
    opening.moves_algebraic = [] ∧
    (step config opening click_rejected).phase = .crashed ∧
    (step config opening click_rejected).moves_algebraic = [some "e2e4"] ∧
    (∀ (cfg : Config) (s : State) (t : Turn) (smove : Option String),
      get_stockfish_move t.info t.rnd = some smove →
      get_move_selectors smove s.white ≠ none →
      (our_term_branch cfg s t).phase = s.phase ∧
      (our_term_branch cfg s t).moves_algebraic = s.moves_algebraic) := by
  refine ⟨rfl, by decide!, by decide!, ?_⟩
  intro cfg s t smove hget hsel
  cases hs : get_move_selectors smove s.white with
  | none => exact absurd hs hsel
  | some sel => cases hc : t.click_src_ok <;> simp [our_term_branch, hget, hs, hc]

end LichessBot
